import Mathlib

/-!
Verification development for the hnx-toolchain Ohlink container codec and
linker core.  The Rust sources (crates/ohlink-format/src/lib.rs and
crates/ohlink-ld/src/main.rs) are shallowly embedded here: byte buffers are
`List Nat` (each element one byte), machine integers are `Nat`/`Int` with
explicit `% 2^w` at the points where the Rust code truncates (`as u32`,
`as u64`, wrapping arithmetic), and fallible or panicking code returns
`Option`/`Except` (`none` models a Rust panic such as an out-of-bounds slice).
-/

/-! ### Little-endian byte utilities -/

/-- Little-endian encoding of `v` into `n` bytes (low byte first); mirrors
`u32::to_le_bytes` / `u64::to_le_bytes` (truncating to the field width). -/
def leBytes : Nat → Nat → List Nat
  | 0, _ => []
  | n + 1, v => v % 256 :: leBytes n (v / 256)

/-- Little-endian read of `n` bytes of `d` starting at `off`; mirrors
`uNN::from_le_bytes` on a byte slice.  Out-of-range bytes read as 0 (all
call sites in the embedding are bounds-checked first, as in the source). -/
def readLE (d : List Nat) (off : Nat) : Nat → Nat
  | 0 => 0
  | n + 1 => d.getD off 0 + 256 * readLE d (off + 1) n

/-- Byte-window of a buffer: `d[off .. off+len]` after a bounds check has
already been performed (Rust slice syntax on in-range indices). -/
def byteSlice (d : List Nat) (off len : Nat) : List Nat :=
  (d.drop off).take len

/-- Two's-complement interpretation of a `w`-bit pattern (`x as iNN`). -/
def toSigned (w : Nat) (x : Nat) : Int :=
  if x < 2 ^ (w - 1) then (x : Int) else (x : Int) - 2 ^ w

/-- The `w`-bit two's-complement pattern of an integer (`z as uNN` on a value
computed in a wider signed type; `Int.emod` is always nonnegative here). -/
def wrapInt (w : Nat) (z : Int) : Nat :=
  (z % ((2 : Int) ^ w)).toNat

/-- Wrapping `u64` subtraction `a - b` (release-profile Rust semantics). -/
def wrapSub64 (a b : Nat) : Nat :=
  (a % 2 ^ 64 + 2 ^ 64 - b % 2 ^ 64) % 2 ^ 64

/-- Shared helper `align_up` (present identically in ohlink-format and
ohlink-ld): round `val` up to a multiple of `a`; `a = 0` means no padding. -/
def alignUp (val a : Nat) : Nat :=
  if a = 0 then val else ((val + a - 1) / a) * a

/-! ### ohlink-format: constants and core structures -/

def OHLINK_MAGIC : Nat := 0x0f112233
def OHLINK_MAGIC_64 : Nat := 0x0f112234
def OHLIB_MAGIC : Nat := 0x0f112235
def CPU_TYPE_ARM64 : Nat := 0x0100000C
def MH_OBJECT : Nat := 0x1
def MH_EXECUTE : Nat := 0x2
def LC_SEGMENT_64 : Nat := 0x19
def LC_SYMTAB : Nat := 0x2
def LC_NOTE_ABI : Nat := 0x31
def RELOC_ABS64 : Nat := 1
def RELOC_ABS32 : Nat := 2
def RELOC_REL64 : Nat := 3
def RELOC_REL32 : Nat := 4
def RELOC_BRANCH26 : Nat := 5
def RELOC_ADR_PREL_PG_HI21 : Nat := 9
def RELOC_ADD_ABS_LO12_NC : Nat := 10
def RELOC_LD_PREL_LO19 : Nat := 11

structure OhlinkHeader where
  magic : Nat
  cpu_type : Nat
  cpu_subtype : Nat
  file_type : Nat
  ncmds : Nat
  sizeofcmds : Nat
  flags : Nat
  reserved : Nat
deriving DecidableEq

structure SegmentCommand64 where
  cmd : Nat
  cmdsize : Nat
  segname : List Nat
  vmaddr : Nat
  vmsize : Nat
  fileoff : Nat
  filesize : Nat
  maxprot : Nat
  initprot : Nat
  nsects : Nat
  flags : Nat
deriving DecidableEq

structure Section64 where
  sectname : List Nat
  segname : List Nat
  addr : Nat
  size : Nat
  offset : Nat
  align : Nat
  reloff : Nat
  nreloc : Nat
  flags : Nat
  reserved1 : Nat
  reserved2 : Nat
  reserved3 : Nat
deriving DecidableEq

structure SymtabCommand where
  cmd : Nat
  cmdsize : Nat
  symoff : Nat
  nsyms : Nat
  stroff : Nat
  strsize : Nat
deriving DecidableEq

structure Relocation64 where
  r_addr : Nat
  r_symbol : Nat
  r_type : Nat
  r_addend : Int
deriving DecidableEq

structure Nlist64 where
  n_strx : Nat
  n_type : Nat
  n_sect : Nat
  n_desc : Nat
  n_value : Nat
deriving DecidableEq

inductive LoadCommand where
  | segment64 (cmd : SegmentCommand64) (sections : List Section64)
  | symtab (cmd : SymtabCommand)
  | unknown (cmd cmdsize : Nat) (data : List Nat)
  | noteAbi (abi_version flags : Nat)
deriving DecidableEq

structure OhlinkFile where
  header : OhlinkHeader
  commands : List LoadCommand
  data : List Nat
deriving DecidableEq

inductive OhlinkError where
  | invalidMagic (expected found : Nat)
  | unsupportedCpuType (c : Nat)
  | unsupportedFileType (c : Nat)
  | parseError (offset : Nat) (message : String)
deriving DecidableEq

/-! ### ohlink-format: parser (`OhlinkFile::parse` and helpers)

`ptr::read` of a `repr(C)` structure from a byte window is embedded as
field-by-field little-endian reads at the C-layout offsets.  A Rust slice
expression `data[a..b]` that is *not* guarded by a bounds check in the
source panics when out of range; those paths return `none`. -/

/-- `OhlinkHeader::from_bytes`. -/
def OhlinkHeader.fromBytes (d : List Nat) : Except OhlinkError OhlinkHeader :=
  if d.length < 32 then
    .error (.parseError 0 "Data too short for Ohlink header")
  else
    .ok { magic := readLE d 0 4, cpu_type := readLE d 4 4,
          cpu_subtype := readLE d 8 4, file_type := readLE d 12 4,
          ncmds := readLE d 16 4, sizeofcmds := readLE d 20 4,
          flags := readLE d 24 4, reserved := readLE d 28 4 }

/-- `OhlinkHeader::validate`. -/
def OhlinkHeader.validate (h : OhlinkHeader) : Except OhlinkError Unit :=
  if h.magic ≠ OHLINK_MAGIC ∧ h.magic ≠ OHLINK_MAGIC_64 then
    .error (.invalidMagic OHLINK_MAGIC h.magic)
  else if h.cpu_type ≠ CPU_TYPE_ARM64 then
    .error (.unsupportedCpuType h.cpu_type)
  else
    .ok ()

/-- Read a `SegmentCommand64` at `off` (C layout: fields at 0,4,8,24,..,68). -/
def readSegCmd (d : List Nat) (off : Nat) : SegmentCommand64 :=
  { cmd := readLE d off 4, cmdsize := readLE d (off + 4) 4,
    segname := byteSlice d (off + 8) 16,
    vmaddr := readLE d (off + 24) 8, vmsize := readLE d (off + 32) 8,
    fileoff := readLE d (off + 40) 8, filesize := readLE d (off + 48) 8,
    maxprot := readLE d (off + 56) 4, initprot := readLE d (off + 60) 4,
    nsects := readLE d (off + 64) 4, flags := readLE d (off + 68) 4 }

/-- Read a `Section64` at `off` (C layout, 80 bytes). -/
def readSection64 (d : List Nat) (off : Nat) : Section64 :=
  { sectname := byteSlice d off 16, segname := byteSlice d (off + 16) 16,
    addr := readLE d (off + 32) 8, size := readLE d (off + 40) 8,
    offset := readLE d (off + 48) 4, align := readLE d (off + 52) 4,
    reloff := readLE d (off + 56) 4, nreloc := readLE d (off + 60) 4,
    flags := readLE d (off + 64) 4, reserved1 := readLE d (off + 68) 4,
    reserved2 := readLE d (off + 72) 4, reserved3 := readLE d (off + 76) 4 }

/-- Read a `SymtabCommand` at `off` (C layout, 24 bytes). -/
def readSymtabCmd (d : List Nat) (off : Nat) : SymtabCommand :=
  { cmd := readLE d off 4, cmdsize := readLE d (off + 4) 4,
    symoff := readLE d (off + 8) 4, nsyms := readLE d (off + 12) 4,
    stroff := readLE d (off + 16) 4, strsize := readLE d (off + 20) 4 }

/-- Read an `Nlist64` at `off` (C layout, 16 bytes). -/
def readNlist64 (d : List Nat) (off : Nat) : Nlist64 :=
  { n_strx := readLE d off 4, n_type := d.getD (off + 4) 0,
    n_sect := d.getD (off + 5) 0, n_desc := readLE d (off + 6) 2,
    n_value := readLE d (off + 8) 8 }

/-- Section-header loop of the `LC_SEGMENT_64` arm of `OhlinkFile::parse`. -/
def parseSections (d : List Nat) : Nat → Nat → Except OhlinkError (List Section64)
  | 0, _ => .ok []
  | n + 1, so =>
    if so + 80 > d.length then
      .error (.parseError so "Incomplete section")
    else
      match parseSections d n (so + 80) with
      | .error e => .error e
      | .ok rest => .ok (readSection64 d so :: rest)

/-- The load-command loop of `OhlinkFile::parse`: one iteration per `ncmds`.
`none` models a panic: the unguarded slices `data[offset..offset+72]`
(Segment64 body), `data[offset..offset+24]` (Symtab body) and
`data[offset+8..offset+16]` (NoteAbi body) panic on a truncated buffer. -/
def parseCmds (d : List Nat) : Nat → Nat → Option (Except OhlinkError (List LoadCommand))
  | 0, _ => some (.ok [])
  | n + 1, off =>
    if off + 8 > d.length then
      some (.error (.parseError off "Incomplete load command"))
    else
      let cmd := readLE d off 4
      let cmdsize := readLE d (off + 4) 4
      if cmd = LC_SEGMENT_64 then
        if cmdsize < 72 then
          some (.error (.parseError off "Segment command too small"))
        else if off + 72 > d.length then
          none
        else
          let sc := readSegCmd d off
          match parseSections d sc.nsects (off + 72) with
          | .error e => some (.error e)
          | .ok secs =>
            (parseCmds d n (off + cmdsize)).map
              (Except.map (fun cs => .segment64 sc secs :: cs))
      else if cmd = LC_SYMTAB then
        if cmdsize ≠ 24 then
          some (.error (.parseError off "Invalid symtab command size"))
        else if off + 24 > d.length then
          none
        else
          (parseCmds d n (off + cmdsize)).map
            (Except.map (fun cs => .symtab (readSymtabCmd d off) :: cs))
      else if cmd = LC_NOTE_ABI then
        if cmdsize ≠ 16 then
          some (.error (.parseError off "Invalid NoteAbi size"))
        else if off + 16 > d.length then
          none
        else
          (parseCmds d n (off + cmdsize)).map
            (Except.map (fun cs =>
              .noteAbi (readLE d (off + 8) 4) (readLE d (off + 12) 4) :: cs))
      else
        let endo := min (off + cmdsize) d.length
        (parseCmds d n (off + cmdsize)).map
          (Except.map (fun cs => .unknown cmd cmdsize (byteSlice d off (endo - off)) :: cs))

/-- `OhlinkFile::parse`.  The leading `&data[0..32]` slice is unguarded in
the source, so any buffer shorter than 32 bytes panics (`none`). -/
def OhlinkFile.parse (d : List Nat) : Option (Except OhlinkError OhlinkFile) :=
  if d.length < 32 then
    none
  else
    match OhlinkHeader.fromBytes (byteSlice d 0 32) with
    | .error e => some (.error e)
    | .ok h =>
      match h.validate with
      | .error e => some (.error e)
      | .ok _ => (parseCmds d h.ncmds 32).map (Except.map (fun cs => ⟨h, cs, d⟩))

/-! ### ohlink-format: builder (`OhlinkBuilder`, `SegmentBuilder`, `OhlibBuilder`)

The Rust builder hands out `&mut SegmentBuilder` handles; here a segment is
assembled as a value (`SegmentBuilder.add_section_with` appends to its
section list) and pushed into the `OhlinkBuilder` exactly where the source
pushes it. -/

structure SymbolEntry where
  n_strx : Nat
  n_type : Nat
  n_sect : Nat
  n_desc : Nat
  n_value : Nat
deriving DecidableEq

structure SectionBuilder where
  sectname : List Nat
  addr : Nat
  size : Nat
  data : List Nat
  align : Nat
  relocations : List Relocation64
deriving DecidableEq

structure SegmentBuilder where
  segname : List Nat
  vmaddr : Nat
  maxprot : Nat
  initprot : Nat
  flags : Nat
  sections : List SectionBuilder
deriving DecidableEq

structure OhlinkBuilder where
  file_type : Nat
  segments : List SegmentBuilder
  symbols : List SymbolEntry
  strings : List Nat
deriving DecidableEq

/-- A 16-byte fixed name field: at most 15 payload bytes, zero-padded. -/
def name16 (name : List Nat) : List Nat :=
  name.take 15 ++ List.replicate (16 - min name.length 15) 0

/-- `OhlinkBuilder::new` (the string table starts with a single NUL byte). -/
def OhlinkBuilder.new (ft : Nat) : OhlinkBuilder :=
  { file_type := ft, segments := [], symbols := [], strings := [0] }

/-- The fresh segment pushed by `OhlinkBuilder::add_segment` (maxprot =
initprot = 7, flags = 0, no sections). -/
def newSegment (name : List Nat) (vmaddr : Nat) : SegmentBuilder :=
  { segname := name16 name, vmaddr := vmaddr, maxprot := 7, initprot := 7,
    flags := 0, sections := [] }

/-- `OhlinkBuilder::add_segment` (the returned `&mut` handle is modelled by
editing the last pushed segment before the next builder operation). -/
def OhlinkBuilder.add_segment (b : OhlinkBuilder) (name : List Nat) (vmaddr : Nat) :
    OhlinkBuilder :=
  { b with segments := b.segments ++ [newSegment name vmaddr] }

/-- `SegmentBuilder::add_section_with`. -/
def SegmentBuilder.add_section_with (sg : SegmentBuilder) (name data : List Nat)
    (addr align size : Nat) : SegmentBuilder :=
  { sg with sections := sg.sections ++
      [{ sectname := name16 name, addr := addr, size := size, data := data,
         align := align, relocations := [] }] }

/-- `SegmentBuilder::add_section` (align 4, declared size = data length). -/
def SegmentBuilder.add_section (sg : SegmentBuilder) (name data : List Nat)
    (addr : Nat) : SegmentBuilder :=
  { sg with sections := sg.sections ++
      [{ sectname := name16 name, addr := addr, size := data.length,
         data := data, align := 4, relocations := [] }] }

/-- `OhlinkBuilder::add_symbol_with`: `n_strx` is the current string-table
length, the name plus a NUL terminator is appended, and the stored section
field is `sect + 1` (a wrapping `u8` add in release builds). -/
def OhlinkBuilder.add_symbol_with (b : OhlinkBuilder) (name : List Nat)
    (value sect n_type n_desc : Nat) : OhlinkBuilder :=
  { b with
    strings := b.strings ++ name ++ [0],
    symbols := b.symbols ++
      [{ n_strx := b.strings.length, n_type := n_type,
         n_sect := (sect + 1) % 256, n_desc := n_desc, n_value := value }] }

/-- `OhlinkBuilder::add_symbol` (n_type = 0x0f, n_desc = 0). -/
def OhlinkBuilder.add_symbol (b : OhlinkBuilder) (name : List Nat)
    (value sect : Nat) : OhlinkBuilder :=
  { b with
    strings := b.strings ++ name ++ [0],
    symbols := b.symbols ++
      [{ n_strx := b.strings.length, n_type := 0x0f,
         n_sect := (sect + 1) % 256, n_desc := 0, n_value := value }] }

/-- Walk of `OhlinkBuilder::add_relocations_by_ord` over one segment's
sections; returns the updated sections and the running flat-section count,
or the sections unchanged once the target ordinal has been hit earlier. -/
def addRelsInSections (target : Nat) (rs : List Relocation64) :
    List SectionBuilder → Nat → List SectionBuilder × Nat
  | [], count => ([], count)
  | s :: rest, count =>
    if count = target then
      ({ s with relocations := s.relocations ++ rs } :: rest, count + 1)
    else
      let (rest', count') := addRelsInSections target rs rest (count + 1)
      (s :: rest', count')

/-- `OhlinkBuilder::add_relocations_by_ord`: append `rs` to the section at
flat ordinal `ord` (emission order across segments); no-op if out of range. -/
def OhlinkBuilder.add_relocations_by_ord (b : OhlinkBuilder) (ord : Nat)
    (rs : List Relocation64) : OhlinkBuilder :=
  let go : List SegmentBuilder → Nat → List SegmentBuilder × Nat :=
    fun segs count => segs.foldl
      (fun (acc : List SegmentBuilder × Nat) sg =>
        let (secs', count') := addRelsInSections ord rs sg.sections acc.2
        (acc.1 ++ [{ sg with sections := secs' }], count'))
      ([], count)
  { b with segments := (go b.segments 0).1 }

/-- Serialization of one `Relocation64` (C layout, 24 bytes). -/
def relocBytes (r : Relocation64) : List Nat :=
  leBytes 8 r.r_addr ++ leBytes 4 r.r_symbol ++ leBytes 4 r.r_type ++
    leBytes 8 (wrapInt 64 r.r_addend)

/-- Serialization of one symbol as an `Nlist64` (C layout, 16 bytes). -/
def nlistBytes (e : SymbolEntry) : List Nat :=
  leBytes 4 e.n_strx ++ [e.n_type % 256] ++ [e.n_sect % 256] ++
    leBytes 2 e.n_desc ++ leBytes 8 e.n_value

/-- Serialization of a `SegmentCommand64` (C layout, 72 bytes). -/
def segCmdBytes (c : SegmentCommand64) : List Nat :=
  leBytes 4 c.cmd ++ leBytes 4 c.cmdsize ++ c.segname ++
    leBytes 8 c.vmaddr ++ leBytes 8 c.vmsize ++ leBytes 8 c.fileoff ++
    leBytes 8 c.filesize ++ leBytes 4 c.maxprot ++ leBytes 4 c.initprot ++
    leBytes 4 c.nsects ++ leBytes 4 c.flags

/-- Serialization of a `Section64` header (C layout, 80 bytes). -/
def sectionBytes (s : Section64) : List Nat :=
  s.sectname ++ s.segname ++ leBytes 8 s.addr ++ leBytes 8 s.size ++
    leBytes 4 s.offset ++ leBytes 4 s.align ++ leBytes 4 s.reloff ++
    leBytes 4 s.nreloc ++ leBytes 4 s.flags ++ leBytes 4 s.reserved1 ++
    leBytes 4 s.reserved2 ++ leBytes 4 s.reserved3

/-- Serialization of an `OhlinkHeader` (32 bytes). -/
def OhlinkHeader.toBytes (h : OhlinkHeader) : List Nat :=
  leBytes 4 h.magic ++ leBytes 4 h.cpu_type ++ leBytes 4 h.cpu_subtype ++
    leBytes 4 h.file_type ++ leBytes 4 h.ncmds ++ leBytes 4 h.sizeofcmds ++
    leBytes 4 h.flags ++ leBytes 4 h.reserved

/-- Per-section body of `SegmentBuilder::build`: thread the running file
offset, emit alignment padding, data bytes, then relocation records, and
produce the section headers (offsets still relative at this stage; the
`as u32` casts truncate mod `2^32`). -/
def segBuildGo (segname : List Nat) (vmaddr : Nat) :
    List SectionBuilder → Nat → Nat → List Section64 × List Nat × Nat × Nat
  | [], fo, vmend => ([], [], fo, vmend)
  | s :: rest, fo, vmend =>
    let pad := if s.align > 0 ∧ fo % s.align ≠ 0 then s.align - fo % s.align else 0
    let fo1 := fo + pad
    let offField := if s.data = [] then 0 else fo1 % 2 ^ 32
    let fo2 := if s.data = [] then fo1 else fo1 + s.data.length
    let reloffField := if s.relocations = [] then 0 else fo2 % 2 ^ 32
    let nrelocField := if s.relocations = [] then 0 else s.relocations.length % 2 ^ 32
    let fo3 := fo2 + 24 * s.relocations.length
    let hdr : Section64 :=
      { sectname := s.sectname, segname := segname, addr := vmaddr + s.addr,
        size := s.size, offset := offField, align := s.align,
        reloff := reloffField, nreloc := nrelocField, flags := 0,
        reserved1 := 0, reserved2 := 0, reserved3 := 0 }
    let vmend1 := max vmend (vmaddr + s.addr + s.size)
    let (hdrs, dat, fo4, vmend2) := segBuildGo segname vmaddr rest fo3 vmend1
    (hdr :: hdrs,
     List.replicate pad 0 ++ s.data ++ (s.relocations.map relocBytes).flatten ++ dat,
     fo4, vmend2)

/-- `SegmentBuilder::build`: returns the segment command, section headers and
data region, threading the caller's running file offset. -/
def SegmentBuilder.build (sg : SegmentBuilder) (fo : Nat) :
    SegmentCommand64 × List Section64 × List Nat × Nat :=
  let (hdrs, dat, fo', vmend) := segBuildGo sg.segname sg.vmaddr sg.sections fo sg.vmaddr
  ({ cmd := LC_SEGMENT_64,
     cmdsize := (72 + 80 * sg.sections.length) % 2 ^ 32,
     segname := sg.segname, vmaddr := sg.vmaddr, vmsize := vmend - sg.vmaddr,
     fileoff := fo, filesize := fo' - fo, maxprot := sg.maxprot,
     initprot := sg.initprot, nsects := sg.sections.length % 2 ^ 32,
     flags := sg.flags },
   hdrs, dat, fo')

/-- Segment loop of `OhlinkBuilder::build`: build each segment, then add
`base = 32 + sizeofcmds` to `fileoff`, `offset`, and nonzero `reloff`
before serializing the load commands.  Returns (load-command bytes,
data-region bytes, final running file offset). -/
def buildSegs (base : Nat) : List SegmentBuilder → Nat → List Nat × List Nat × Nat
  | [], fo => ([], [], fo)
  | sg :: rest, fo =>
    let (cmd, secs, dat, fo') := sg.build fo
    let cmd' := { cmd with fileoff := cmd.fileoff + base }
    let secs' := secs.map (fun s =>
      { s with offset := (s.offset + base) % 2 ^ 32,
               reloff := if s.reloff ≠ 0 then (s.reloff + base) % 2 ^ 32 else 0 })
    let cmdBytes := segCmdBytes cmd' ++ (secs'.map sectionBytes).flatten
    let (restCmds, restDat, fo'') := buildSegs base rest fo'
    (cmdBytes ++ restCmds, dat ++ restDat, fo'')

/-- `OhlinkBuilder::build`.  The running file offset starts at 32 (the
reserved header space of the source's `result` buffer); the final file is
`header ++ load commands ++ (result minus its 32 reserved bytes)`. -/
def OhlinkBuilder.build (b : OhlinkBuilder) : List Nat :=
  let sizeofPre := (b.segments.map (fun s => 72 + 80 * s.sections.length)).sum + 24 + 16
  let base := 32 + sizeofPre
  let bs := buildSegs base b.segments 32
  let loadCmds := bs.1
  let segData := bs.2.1
  let symtabOffset := bs.2.2
  let symBytes := (b.symbols.map nlistBytes).flatten
  let stroff := symtabOffset + 16 * b.symbols.length
  let symtabBytes :=
    leBytes 4 LC_SYMTAB ++ leBytes 4 24 ++
      leBytes 4 ((symtabOffset + base) % 2 ^ 32) ++
      leBytes 4 (b.symbols.length % 2 ^ 32) ++
      leBytes 4 ((stroff + base) % 2 ^ 32) ++
      leBytes 4 (b.strings.length % 2 ^ 32)
  let noteBytes := leBytes 4 LC_NOTE_ABI ++ leBytes 4 16 ++ leBytes 4 1 ++ leBytes 4 0
  let cmds := loadCmds ++ symtabBytes ++ noteBytes
  let hdr : OhlinkHeader :=
    { magic := OHLINK_MAGIC_64, cpu_type := CPU_TYPE_ARM64, cpu_subtype := 0,
      file_type := b.file_type, ncmds := (b.segments.length + 2) % 2 ^ 32,
      sizeofcmds := cmds.length % 2 ^ 32, flags := 0, reserved := 0 }
  hdr.toBytes ++ cmds ++ (segData ++ symBytes ++ b.strings)

/-! ### ohlink-format: Ohlib archive codec

`size_of::<OhlibHeader>()` is 12 (a `repr(C)` struct of `[u8; 4]` and two
`u32`s) and `size_of::<OhlibEntry>()` is 48 (`[u8; 32]` plus two `u64`s). -/

/-- A 32-byte archive entry name field: at most 31 payload bytes, zero-padded. -/
def name32 (name : List Nat) : List Nat :=
  name.take 31 ++ List.replicate (32 - min name.length 31) 0

/-- Serialization of one `OhlibEntry` (48 bytes). -/
def ohlibEntryBytes (name : List Nat) (off size : Nat) : List Nat :=
  name32 name ++ leBytes 8 off ++ leBytes 8 size

/-- Entry-table / body loop of `OhlibBuilder::build`: thread the running
absolute body offset, produce the entry table and the concatenated bodies. -/
def ohlibGo : List (List Nat × List Nat) → Nat → List Nat × List Nat
  | [], _ => ([], [])
  | (nm, bs) :: rest, off =>
    let r := ohlibGo rest (off + bs.length)
    (ohlibEntryBytes nm off bs.length ++ r.1, bs ++ r.2)

/-- `OhlibBuilder::build`: header (12 bytes) ++ entry table ++ bodies, with
each entry's offset the absolute file offset of its body. -/
def OhlibBuilder.build (ms : List (List Nat × List Nat)) : List Nat :=
  let start := 12 + 48 * ms.length
  leBytes 4 OHLIB_MAGIC ++ leBytes 4 (ms.length % 2 ^ 32) ++ leBytes 4 0 ++
    (ohlibGo ms start).1 ++ (ohlibGo ms start).2

/-! ### ohlink-ld: relocation application (`apply_relocations_with_base`)

Instruction-word patch computations are split out per relocation type
(each is the body of the corresponding `match` arm).  `i128` arithmetic is
exact (`Int`); a signed right shift is Euclidean division by a power of two
(the divisor is positive, so `Int` division rounds toward `-∞` exactly like
an arithmetic shift); `as u32`/`as u64` casts are `wrapInt`. -/

/-- Arithmetic (sign-propagating) right shift of a 32-bit pattern. -/
def sar32 (x k : Nat) : Nat :=
  wrapInt 32 (toSigned 32 x / (2 : Int) ^ k)

/-- `RELOC_BRANCH26` arm: replace the low 26 bits of the instruction word
with `(delta >> 2)`; the kept-bit mask `!0x03ff_ffff` is written as an
explicit xor against the all-ones 32-bit word. -/
def patchBranch26Word (orig : Nat) (delta : Int) : Nat :=
  let imm26 := wrapInt 32 (delta / 4)
  (orig &&& ((2 ^ 32 - 1) ^^^ (2 ^ 26 - 1))) ||| (imm26 &&& (2 ^ 26 - 1))

/-- `RELOC_AARCH64_ADR_PREL_PG_HI21` arm: compute the page delta
`(tPlusA >> 12) - (place >> 12)` as an `i32`, split it into
`immlo = imm & 0b11` and `immhi = (imm >> 2) & 0x7ffff`, clear the
instruction's bits [30:29] and [23:5], and or the two fields in. -/
def patchAdrpWord (orig : Nat) (tPlusA place : Int) : Nat :=
  let imm := wrapInt 32 (tPlusA / 2 ^ 12 - place / 2 ^ 12)
  let immlo := imm &&& (2 ^ 2 - 1)
  let immhi := sar32 imm 2 &&& (2 ^ 19 - 1)
  ((orig &&& ((2 ^ 32 - 1) ^^^ ((2 ^ 2 - 1) <<< 29)))
     &&& ((2 ^ 32 - 1) ^^^ ((2 ^ 19 - 1) <<< 5)))
    ||| (immlo <<< 29) ||| (immhi <<< 5)

/-- `RELOC_AARCH64_ADD_ABS_LO12_NC` arm: put `low12(tPlusA)` into bits
[21:10] of the instruction word. -/
def patchAdd12Word (orig : Nat) (tPlusA : Int) : Nat :=
  let lo12 := wrapInt 64 tPlusA &&& (2 ^ 12 - 1)
  (orig &&& ((2 ^ 32 - 1) ^^^ ((2 ^ 12 - 1) <<< 10))) ||| (lo12 <<< 10)

/-- `RELOC_AARCH64_LD_PREL_LO19` arm: put `(delta >> 2) & 0x7ffff` into bits
[23:5] of the instruction word. -/
def patchLd19Word (orig : Nat) (delta : Int) : Nat :=
  let imm19 := wrapInt 32 (delta / 4)
  (orig &&& ((2 ^ 32 - 1) ^^^ ((2 ^ 19 - 1) <<< 5))) |||
    ((imm19 &&& (2 ^ 19 - 1)) <<< 5)

/-- Rust `section_data[s..e].copy_from_slice(src)`: panics (`none`) unless
`s ≤ e ≤ len` and the lengths agree. -/
def sliceWrite (buf : List Nat) (s e : Nat) (src : List Nat) : Option (List Nat) :=
  if s ≤ e ∧ e ≤ buf.length ∧ src.length = e - s then
    some (buf.take s ++ src ++ buf.drop e)
  else
    none

/-- Rust `section_data[s..e]` read: panics (`none`) unless `s ≤ e ≤ len`. -/
def sliceRead (buf : List Nat) (s e : Nat) : Option (List Nat) :=
  if s ≤ e ∧ e ≤ buf.length then some ((buf.drop s).take (e - s)) else none

/-- Read one `Relocation64` record at `off` (C layout, 24 bytes). -/
def readReloc (d : List Nat) (off : Nat) : Relocation64 :=
  { r_addr := readLE d off 8, r_symbol := readLE d (off + 8) 4,
    r_type := readLE d (off + 12) 4, r_addend := toSigned 64 (readLE d (off + 16) 8) }

/-- One iteration of the `apply_relocations_with_base` loop.  The patch-site
offset is the wrapping `u64` difference `r_addr - old_sec.addr`; the slice
end indices `offset + 4` / `offset + 8` wrap as `usize` additions do in a
release build, so a huge offset can slip past the skip guard and panic in
the slice expression (`none`). -/
def applyRelocStep (buf : List Nat) (oldSec : Section64) (newAbsBase : Nat)
    (r : Relocation64) (symbols : List Nlist64) : Option (List Nat) :=
  let o := wrapSub64 r.r_addr oldSec.addr
  let place : Int := (newAbsBase : Int) + o
  if (o + 8) % 2 ^ 64 > buf.length then
    some buf
  else if symbols.length ≤ r.r_symbol then
    some buf
  else
    let sym := symbols.getD r.r_symbol ⟨0, 0, 0, 0, 0⟩
    let target : Int := sym.n_value
    let a := r.r_addend
    if r.r_type = RELOC_ABS64 then
      sliceWrite buf o ((o + 8) % 2 ^ 64) (leBytes 8 (wrapInt 64 (target + a)))
    else if r.r_type = RELOC_ABS32 then
      sliceWrite buf o ((o + 4) % 2 ^ 64) (leBytes 4 (wrapInt 32 (target + a)))
    else if r.r_type = RELOC_REL64 then
      sliceWrite buf o ((o + 8) % 2 ^ 64) (leBytes 8 (wrapInt 64 (target + a - place)))
    else if r.r_type = RELOC_REL32 then
      sliceWrite buf o ((o + 4) % 2 ^ 64) (leBytes 4 (wrapInt 32 (target + a - place)))
    else if r.r_type = RELOC_BRANCH26 then
      match sliceRead buf o ((o + 4) % 2 ^ 64) with
      | none => none
      | some w =>
        sliceWrite buf o ((o + 4) % 2 ^ 64)
          (leBytes 4 (patchBranch26Word (readLE w 0 4) (target + a - place)))
    else if r.r_type = RELOC_ADR_PREL_PG_HI21 then
      match sliceRead buf o ((o + 4) % 2 ^ 64) with
      | none => none
      | some w =>
        sliceWrite buf o ((o + 4) % 2 ^ 64)
          (leBytes 4 (patchAdrpWord (readLE w 0 4) (target + a) place))
    else if r.r_type = RELOC_ADD_ABS_LO12_NC then
      match sliceRead buf o ((o + 4) % 2 ^ 64) with
      | none => none
      | some w =>
        sliceWrite buf o ((o + 4) % 2 ^ 64)
          (leBytes 4 (patchAdd12Word (readLE w 0 4) (target + a)))
    else if r.r_type = RELOC_LD_PREL_LO19 then
      match sliceRead buf o ((o + 4) % 2 ^ 64) with
      | none => none
      | some w =>
        sliceWrite buf o ((o + 4) % 2 ^ 64)
          (leBytes 4 (patchLd19Word (readLE w 0 4) (target + a - place)))
    else
      some buf

/-- Record loop of `apply_relocations_with_base`: read `nreloc` records at
`reloff` from the input file bytes, stopping early (`break`) when a record
would run past the end of the file. -/
def applyRelocsGo (oldSec : Section64) (newAbsBase : Nat) (fileData : List Nat)
    (symbols : List Nlist64) : Nat → Nat → List Nat → Option (List Nat)
  | 0, _, buf => some buf
  | k + 1, start, buf =>
    if start + 24 > fileData.length then
      some buf
    else
      match applyRelocStep buf oldSec newAbsBase (readReloc fileData start) symbols with
      | none => none
      | some buf' => applyRelocsGo oldSec newAbsBase fileData symbols k (start + 24) buf'

/-- `apply_relocations_with_base` (the `Ok(())` result carries the patched
bytes here; `none` is a panic). -/
def applyRelocations (buf : List Nat) (oldSec : Section64) (newAbsBase : Nat)
    (fileData : List Nat) (symbols : List Nlist64) : Option (List Nat) :=
  applyRelocsGo oldSec newAbsBase fileData symbols oldSec.nreloc oldSec.reloff buf

/-! ### ohlink-ld: symbol-table pre-parse and section merging -/

/-- `read_cstr`: the NUL-terminated byte run at `off`, empty if out of range. -/
def readCStr (buf : List Nat) (off : Nat) : List Nat :=
  if off ≥ buf.length then [] else (buf.drop off).takeWhile (· ≠ 0)

/-- Trailing-NUL trim of a fixed-width name field
(`String::from_utf8_lossy(..).trim_end_matches('\0')`). -/
def trimZeros (l : List Nat) : List Nat :=
  (l.reverse.dropWhile (· = 0)).reverse

/-- ASCII bytes of "__DATA", the segment-name compare in the merge loop. -/
def bDATA : List Nat := [0x5F, 0x5F, 0x44, 0x41, 0x54, 0x41]

/-- ASCII bytes of "__TEXT". -/
def bTEXT : List Nat := [0x5F, 0x5F, 0x54, 0x45, 0x58, 0x54]

/-- ASCII bytes of "__PAGEZERO". -/
def bPAGEZERO : List Nat := [0x5F, 0x5F, 0x50, 0x41, 0x47, 0x45, 0x5A, 0x45, 0x52, 0x4F]

/-- ASCII bytes of "__pagezero". -/
def bPagezeroSec : List Nat := [0x5F, 0x5F, 0x70, 0x61, 0x67, 0x65, 0x7A, 0x65, 0x72, 0x6F]

/-- Nlist read loop of the per-input symbol-table pre-parse (`all_symbols`):
read `nsyms` entries at `symoff`, stopping at the first out-of-range one. -/
def readNlists (d : List Nat) : Nat → Nat → List Nlist64
  | 0, _ => []
  | k + 1, s =>
    if s ≥ d.length ∨ s + 16 > d.length then []
    else readNlist64 d s :: readNlists d k (s + 16)

/-- The last `Symtab` command of a parsed file (the source's scan keeps the
last match). -/
def lastSymtab (f : OhlinkFile) : Option SymtabCommand :=
  f.commands.foldl (fun acc c => match c with | .symtab s => some s | _ => acc) none

/-- Per-input symbol-table pre-parse: (nlist entries, string-table slice). -/
def inputSymbols (d : List Nat) (f : OhlinkFile) : List Nlist64 × List Nat :=
  match lastSymtab f with
  | none => ([], [])
  | some sym =>
    let entries := readNlists d sym.nsyms sym.symoff
    let st := if sym.stroff < d.length then
        (d.drop sym.stroff).take (min (sym.stroff + sym.strsize) d.length - sym.stroff)
      else []
    (entries, st)

/-- One pending output section produced by the merge loop (the tuples pushed
into `text_items` / `data_items`). -/
structure MergeItem where
  name : List Nat
  bytes : List Nat
  align : Nat
  rel : Nat
  fi : Nat
  si : Nat
  old : Section64
deriving DecidableEq

/-- State threaded through the merge loop. -/
structure MergeState where
  textOff : Nat
  dataOff : Nat
  textItems : List MergeItem
  dataItems : List MergeItem
  secMap : List (Nat × Nat × Nat)
deriving DecidableEq

/-- Merge-loop body for the sections of one segment command: slice the
section bytes out of the input file, bump the per-segment output offset to
the alignment, apply relocations (only when `nreloc > 0`), and record the
item and the section-address map entry.  `si` is the per-input running
old-section index (a wrapping `u8`). -/
def mergeSections (fi : Nat) (d : List Nat) (syms : List Nlist64) (tb db : Nat) :
    List Section64 → Nat → MergeState → Option (Nat × MergeState)
  | [], si, st => some (si, st)
  | sec :: rest, si, st =>
    let isData := trimZeros sec.segname = bDATA
    let dataSlice :=
      if sec.offset ≠ 0 ∧ sec.size > 0 then
        if sec.offset ≥ d.length then []
        else
          let e := min (sec.offset + sec.size) d.length
          if e ≤ sec.offset then [] else (d.drop sec.offset).take (e - sec.offset)
      else []
    let baseVm := if isData then db else tb
    let cur0 := if isData then st.dataOff else st.textOff
    let cur := if sec.align > 0 then alignUp cur0 sec.align else cur0
    let newRel := cur
    let newAbs := baseVm + newRel
    let patched :=
      if sec.nreloc > 0 then applyRelocations dataSlice sec newAbs d syms
      else some dataSlice
    match patched with
    | none => none
    | some bytes =>
      let item : MergeItem :=
        { name := trimZeros sec.sectname, bytes := bytes, align := sec.align,
          rel := newRel, fi := fi, si := si, old := sec }
      let st' :=
        if isData then
          { st with dataOff := cur + sec.size, dataItems := st.dataItems ++ [item],
                    secMap := st.secMap ++ [(fi, si, newAbs)] }
        else
          { st with textOff := cur + sec.size, textItems := st.textItems ++ [item],
                    secMap := st.secMap ++ [(fi, si, newAbs)] }
      mergeSections fi d syms tb db rest ((si + 1) % 256) st'

/-- Merge-loop body for one input: fold its segment commands (the running
old-section index continues across segments of the same input). -/
def mergeCmds (fi : Nat) (d : List Nat) (syms : List Nlist64) (tb db : Nat) :
    List LoadCommand → Nat → MergeState → Option (Nat × MergeState)
  | [], si, st => some (si, st)
  | .segment64 _ secs :: rest, si, st =>
    match mergeSections fi d syms tb db secs si st with
    | none => none
    | some (si', st') => mergeCmds fi d syms tb db rest si' st'
  | _ :: rest, si, st => mergeCmds fi d syms tb db rest si st

/-- Merge loop over all inputs (enumerated by file index `fi`). -/
def mergeAll (tb db : Nat) :
    List ((List Nat × OhlinkFile) × (List Nlist64 × List Nat)) → Nat → MergeState →
    Option MergeState
  | [], _, st => some st
  | ((d, f), (syms, _)) :: rest, fi, st =>
    match mergeCmds fi d syms tb db f.commands 0 st with
    | none => none
    | some (_, st') => mergeAll tb db rest (fi + 1) st'

/-! ### ohlink-ld: global symbol resolution, symbol emission, link pipeline -/

/-- Lookup in the name-keyed map (`HashMap<String, u64>`); inserts prepend,
so the first hit is the most recent insert. -/
def mapLookup (m : List (List Nat × Nat)) (k : List Nat) : Option Nat :=
  (m.find? (fun p => p.1 = k)).map (fun p => p.2)

/-- `HashMap::insert` with overwrite semantics (membership view). -/
def mapInsert (m : List (List Nat × Nat)) (k : List Nat) (v : Nat) :
    List (List Nat × Nat) :=
  (k, v) :: m

/-- The `(file_idx, old_section_index)`-keyed finds used by the symbol
loops: the recorded new absolute base of a merged input section. -/
def findSecMap (m : List (Nat × Nat × Nat)) (fi si : Nat) : Option Nat :=
  (m.find? (fun e => e.1 = fi ∧ e.2.1 = si)).map (fun e => e.2.2)

/-- The `text_items.iter().chain(data_items.iter()).find(..)` lookup: the
merged item for `(fi, si)`, text items first. -/
def findItem (titems ditems : List MergeItem) (fi si : Nat) : Option MergeItem :=
  (titems ++ ditems).find? (fun it => it.fi = fi ∧ it.si = si)

/-- The `ord_map` built while adding sections: flat output ordinals assigned
in order over text items then data items. -/
def ordMapOf (titems ditems : List MergeItem) : List (Nat × Nat × Nat) :=
  ((titems ++ ditems).enum.map (fun p => (p.2.fi, p.2.si, p.1)))

/-- The `ord_map.iter().find(..)` lookup used when emitting a symbol. -/
def findOrd (om : List (Nat × Nat × Nat)) (fi si : Nat) : Option Nat :=
  (om.find? (fun e => e.1 = fi ∧ e.2.1 = si)).map (fun e => e.2.2)

/-- Global-definition pass (`global_defs`): for every defined symbol of
every input whose section was merged, record
`new_section_base + (n_value - old_section.addr)` (an `i128` computation
cast back to `u64`). -/
def globalDefsOf (allSyms : List (List Nlist64 × List Nat))
    (titems ditems : List MergeItem) (smap : List (Nat × Nat × Nat)) :
    List (List Nat × Nat) :=
  (allSyms.enum.foldl
    (fun m p =>
      let fi := p.1
      let entries := p.2.1
      let st := p.2.2
      entries.foldl
        (fun m e =>
          if e.n_sect ≠ 0 then
            let oldSi := e.n_sect - 1
            match findSecMap smap fi oldSi with
            | some base =>
              match findItem titems ditems fi oldSi with
              | some it =>
                mapInsert m (readCStr st e.n_strx)
                  (wrapInt 64 ((base : Int) + ((e.n_value : Int) - it.old.addr)))
              | none => m
            | none => m
          else m)
        m)
    [])

/-- Output-symbol pass: every input symbol is re-emitted through
`add_symbol_with`.  For a symbol with `n_sect ≠ 0` whose section was merged,
the value is rebased and the ordinal comes from `ord_map` (`unwrap_or(0)`);
the `unwrap()` on the chained item lookup panics (`none`) if the item is
missing.  For `n_sect = 0` the value is the `global_defs` entry or 0, with
ordinal 0. -/
def emitSymbols (titems ditems : List MergeItem) (smap : List (Nat × Nat × Nat))
    (om : List (Nat × Nat × Nat)) (gdefs : List (List Nat × Nat)) (fi : Nat)
    (st : List Nat) : List Nlist64 → OhlinkBuilder → Option OhlinkBuilder
  | [], b => some b
  | e :: rest, b =>
    let name := readCStr st e.n_strx
    let r : Option (Nat × Nat) :=
      if e.n_sect ≠ 0 then
        let oldSi := e.n_sect - 1
        match findSecMap smap fi oldSi with
        | some base =>
          match findItem titems ditems fi oldSi with
          | some it =>
            some (wrapInt 64 ((base : Int) + ((e.n_value : Int) - it.old.addr)),
                  (findOrd om fi oldSi).getD 0)
          | none => none
        | none => some (0, 0)
      else
        some ((mapLookup gdefs name).getD 0, 0)
    match r with
    | none => none
    | some (newVal, ord) =>
      emitSymbols titems ditems smap om gdefs fi st rest
        (b.add_symbol_with name newVal ord e.n_type e.n_desc)

/-- Fold of the output-symbol pass over all inputs. -/
def emitAllSymbols (titems ditems : List MergeItem) (smap : List (Nat × Nat × Nat))
    (om : List (Nat × Nat × Nat)) (gdefs : List (List Nat × Nat)) :
    List (List Nlist64 × List Nat) → Nat → OhlinkBuilder → Option OhlinkBuilder
  | [], _, b => some b
  | (entries, st) :: rest, fi, b =>
    match emitSymbols titems ditems smap om gdefs fi st entries b with
    | none => none
    | some b' => emitAllSymbols titems ditems smap om gdefs rest (fi + 1) b'

/-- `default_bsd_layout`: an executable builder with a `__PAGEZERO` segment
at vmaddr 0 holding one zero-fill section of declared size `0x1_0000_0000`
(align 0x1000, empty data, relative address 0). -/
def defaultBsdLayout : OhlinkBuilder :=
  let b := OhlinkBuilder.new MH_EXECUTE
  { b with segments := b.segments ++
      [(newSegment bPAGEZERO 0).add_section_with bPagezeroSec [] 0 0x1000 0x100000000] }

/-- The post-classification linker pipeline of `main` (from the
`default_bsd_layout` call to the final `b.build()`): merge all input
sections into fresh `__TEXT` / `__DATA` segments at the two base addresses,
then resolve and re-emit every input symbol.  `none` propagates the panics
of relocation application and of the symbol-loop `unwrap`. -/
def linkCore (inputs : List (List Nat × OhlinkFile)) (tb db : Nat) :
    Option OhlinkBuilder :=
  match mergeAll tb db (inputs.zip (inputs.map (fun p => inputSymbols p.1 p.2))) 0
      ⟨0, 0, [], [], []⟩ with
  | none => none
  | some st =>
    let allSyms := inputs.map (fun p => inputSymbols p.1 p.2)
    let b0 := defaultBsdLayout
    let textSeg := st.textItems.foldl
      (fun sg it => sg.add_section_with it.name it.bytes it.rel it.align it.bytes.length)
      (newSegment bTEXT tb)
    let b1 := { b0 with segments := b0.segments ++ [textSeg] }
    let dataSeg := st.dataItems.foldl
      (fun sg it => sg.add_section_with it.name it.bytes it.rel it.align it.bytes.length)
      (newSegment bDATA db)
    let b2 := { b1 with segments := b1.segments ++ [dataSeg] }
    let om := ordMapOf st.textItems st.dataItems
    let gdefs := globalDefsOf allSyms st.textItems st.dataItems st.secMap
    emitAllSymbols st.textItems st.dataItems st.secMap om gdefs allSyms 0 b2

/-! ### ohlink-ld: selective archive-member inclusion

The fixed-point worklist of the executable-mode archive expansion
(`while progress { .. }` over the candidate members).  `defined` /
`undefined` are `HashSet<String>`s used only through membership, so they
are lists here; member `defs` / `undefs` likewise. -/

structure ArMember where
  name : String
  defs : List String
  undefs : List String
deriving DecidableEq

structure PassOut where
  remaining : List ArMember
  defined : List String
  undefined : List String
  selected : List ArMember
  progress : Bool
deriving DecidableEq

structure SelState where
  remaining : List ArMember
  defined : List String
  undefined : List String
  selected : List ArMember
deriving DecidableEq

/-- One inner scan (`while i < candidates.len()`): a member whose `defs`
meet `undefined` is removed and selected, its defs become defined and drop
out of `undefined`, and its undefs not already defined join `undefined`;
the scan continues over the rest with the updated sets. -/
def selectPass : List ArMember → List String → List String → PassOut
  | [], df, uf => ⟨[], df, uf, [], false⟩
  | m :: rest, df, uf =>
    if m.defs.any uf.contains then
      let df' := df ++ m.defs
      let uf' := uf.filter (fun n => !(m.defs.contains n)) ++
        m.undefs.filter (fun n => !(df'.contains n))
      let o := selectPass rest df' uf'
      ⟨o.remaining, o.defined, o.undefined, m :: o.selected, true⟩
    else
      let o := selectPass rest df uf
      ⟨m :: o.remaining, o.defined, o.undefined, o.selected, o.progress⟩

/-- The outer `while progress` loop; each progressing pass removes at least
one candidate, so `candidates.length + 1` passes always suffice. -/
def selectLoop : Nat → List ArMember → List String → List String → List ArMember →
    SelState
  | 0, pend, df, uf, sel => ⟨pend, df, uf, sel⟩
  | fuel + 1, pend, df, uf, sel =>
    let o := selectPass pend df uf
    if o.progress then selectLoop fuel o.remaining o.defined o.undefined (sel ++ o.selected)
    else ⟨o.remaining, o.defined, o.undefined, sel ++ o.selected⟩

/-- Selective inclusion: iterate scans to a fixed point. -/
def selectMembers (pend : List ArMember) (df uf : List String) : SelState :=
  selectLoop (pend.length + 1) pend df uf []

/-! ### Concrete inputs used by the claim evaluations -/

/-- The builder sequence of the crate's own round-trip test: an object file
with one `__TEXT` segment (vmaddr 0x4000_0000) holding one `__text` section
with bytes [1,2,3,4] at relative address 0, plus a `_start` symbol. -/
def rtBuilder : OhlinkBuilder :=
  let b := OhlinkBuilder.new MH_OBJECT
  let b := { b with segments := b.segments ++
    [(newSegment bTEXT 0x40000000).add_section
       [0x5F, 0x5F, 0x74, 0x65, 0x78, 0x74] [1, 2, 3, 4] 0] }
  b.add_symbol [0x5F, 0x73, 0x74, 0x61, 0x72, 0x74] 0x40000000 0

/-- A builder with a zero-fill section: a `__DATA` segment holding `__bss`
with empty data, align 4, declared size 8. -/
def bssBuilder : OhlinkBuilder :=
  let b := OhlinkBuilder.new MH_OBJECT
  { b with segments := b.segments ++
    [(newSegment bDATA 0x40008000).add_section_with
       [0x5F, 0x5F, 0x62, 0x73, 0x73] [] 0 4 8] }

/-- A builder with two segments whose single sections each declare align 16:
the second section's emitted offset is not 16-aligned. -/
def alignBuilder : OhlinkBuilder :=
  let b := OhlinkBuilder.new MH_OBJECT
  let b := { b with segments := b.segments ++
    [(newSegment bTEXT 0x40000000).add_section_with
       [0x5F, 0x5F, 0x74, 0x65, 0x78, 0x74] [7] 0 16 1] }
  { b with segments := b.segments ++
    [(newSegment bDATA 0x40008000).add_section_with
       [0x5F, 0x5F, 0x64, 0x61, 0x74, 0x61] [8] 0 16 1] }

/-- A 40-byte buffer: a valid 32-byte header declaring one load command,
followed by only the 8-byte (cmd, cmdsize) pair of a Symtab command whose
declared 24-byte body is missing. -/
def truncatedSymtabBytes : List Nat :=
  leBytes 4 OHLINK_MAGIC_64 ++ leBytes 4 CPU_TYPE_ARM64 ++ leBytes 4 0 ++
    leBytes 4 1 ++ leBytes 4 1 ++ leBytes 4 24 ++ leBytes 4 0 ++ leBytes 4 0 ++
    leBytes 4 LC_SYMTAB ++ leBytes 4 24

/-- A complete 75-byte object file holding one undefined symbol: header
(ncmds 1, sizeofcmds 24), a Symtab command (symoff 56, nsyms 1, stroff 72,
strsize 3), one `Nlist64` with `n_strx = 1`, `n_type = 0`, `n_sect = 0`,
`n_value = 0`, and the string table `[0, 'x', 0]`. -/
def undefSymBytes : List Nat :=
  leBytes 4 OHLINK_MAGIC_64 ++ leBytes 4 CPU_TYPE_ARM64 ++ leBytes 4 0 ++
    leBytes 4 MH_OBJECT ++ leBytes 4 1 ++ leBytes 4 24 ++ leBytes 4 0 ++ leBytes 4 0 ++
    leBytes 4 LC_SYMTAB ++ leBytes 4 24 ++ leBytes 4 56 ++ leBytes 4 1 ++
    leBytes 4 72 ++ leBytes 4 3 ++
    (leBytes 4 1 ++ [0] ++ [0] ++ leBytes 2 0 ++ leBytes 8 0) ++ [0, 120, 0]

/-- The parsed view of `undefSymBytes`. -/
def undefSymFile : OhlinkFile :=
  { header := { magic := OHLINK_MAGIC_64, cpu_type := CPU_TYPE_ARM64,
                cpu_subtype := 0, file_type := MH_OBJECT, ncmds := 1,
                sizeofcmds := 24, flags := 0, reserved := 0 },
    commands := [.symtab { cmd := LC_SYMTAB, cmdsize := 24, symoff := 56,
                           nsyms := 1, stroff := 72, strsize := 3 }],
    data := undefSymBytes }

/-- An input section at address 8 declaring one relocation record at
reloff 0. -/
def lowAddrSec : Section64 :=
  { sectname := [], segname := [], addr := 8, size := 0, offset := 0,
    align := 0, reloff := 0, nreloc := 1, flags := 0, reserved1 := 0,
    reserved2 := 0, reserved3 := 0 }

/-- One serialized relocation record: `r_addr = 0` (below the section
address 8), `r_symbol = 0` (valid), `r_type = RELOC_ABS64`, addend 0. -/
def lowAddrRelocBytes : List Nat :=
  leBytes 8 0 ++ leBytes 4 0 ++ leBytes 4 RELOC_ABS64 ++ leBytes 8 0

/-! ### Claim C1 -/

set_option maxRecDepth 40000 in
/-- C1: the round-trip claim fails on the code.  For the builder sequence of
the crate's own round-trip test, `parse (build B)` does succeed, but the
single section's header offset is 256 while the emitted file is only 252
bytes long; the section's bytes [1,2,3,4] actually sit at file offset 224.
`OhlinkBuilder::build` adds `base = 32 + sizeofcmds` to running offsets that
already start at 32 (the reserved header), so every emitted offset is 32 too
large and the data read at a section's header offset does not equal the
bytes added to the builder. -/
theorem c1_parse_build_data_mismatch :
    (OhlinkFile.parse (OhlinkBuilder.build rtBuilder)).map
        (Except.map (fun f => f.commands.filterMap (fun c =>
          match c with
          | .segment64 _ secs => some (secs.map (fun s => s.offset))
          | _ => none))) = some (.ok [[256]])
    ∧ (OhlinkBuilder.build rtBuilder).length = 252
    ∧ ((OhlinkBuilder.build rtBuilder).drop 256).take 4 = []
    ∧ ((OhlinkBuilder.build rtBuilder).drop 224).take 4 = [1, 2, 3, 4] :=
  ⟨rfl, rfl, rfl, rfl⟩

/-! ### Claim C2 -/

set_option maxRecDepth 40000 in
/-- C2: `OhlinkFile::parse` does not return a structured error on truncated
input — it panics.  The empty buffer dies on the unguarded `&data[0..32]`
slice, and a valid header followed by a Symtab command whose declared
24-byte body is truncated dies on the unguarded `data[offset..offset+24]`
slice (`none` models the panic). -/
theorem c2_parse_truncation_panics :
    OhlinkFile.parse [] = none ∧ OhlinkFile.parse truncatedSymtabBytes = none :=
  ⟨rfl, rfl⟩

/-! ### Claim C3 -/

set_option maxRecDepth 40000 in
/-- C3: a zero-fill section does not keep `offset = 0` in the emitted file.
For a builder with one `__bss` section (empty data, declared size 8) the
emitted header's offset field (file offset 152) is `32 + sizeofcmds = 224`,
not 0, because `build` adds `base` to every section offset without the
zero-sentinel guard it applies to `reloff`.  The true parts of the claim do
hold: the segment's `filesize` (file offset 80) is 0 — the section occupies
no bytes — and its `vmsize` (file offset 64) is 8. -/
theorem c3_bss_offset_not_zero :
    readLE (OhlinkBuilder.build bssBuilder) 152 4 = 224
    ∧ readLE (OhlinkBuilder.build bssBuilder) 144 8 = 8
    ∧ readLE (OhlinkBuilder.build bssBuilder) 80 8 = 0
    ∧ readLE (OhlinkBuilder.build bssBuilder) 64 8 = 8 :=
  ⟨rfl, rfl, rfl, rfl⟩

/-! ### Claim C4 -/

set_option maxRecDepth 40000 in
/-- C4: an undefined symbol is not emitted with `n_sect = 0`.  Linking a
single input whose symbol table holds one undefined symbol (`n_type = 0`,
`n_sect = 0`) produces an output symbol with `n_sect = 1`, because
`add_symbol_with` stores `sect + 1` unconditionally and the linker passes
ordinal 0 for undefined symbols. -/
theorem c4_undefined_symbol_nsect_one :
    OhlinkFile.parse undefSymBytes = some (.ok undefSymFile)
    ∧ (linkCore [(undefSymBytes, undefSymFile)] 0x40000000 0x40008000).map
        (fun b => b.symbols.map (fun s => (s.n_type, s.n_sect))) =
      some [(0, 1)] :=
  ⟨rfl, rfl⟩

/-! ### Claim C6 -/

set_option maxRecDepth 40000 in
/-- C6: the emitted-offset invariants fail.  For the round-trip builder the
single section's emitted offset field (file offset 152) is 256, but the file
is 252 bytes long, so the offset does not lie within the file; and for two
segments with align-16 sections the second section's emitted offset is 424,
which is not a multiple of its declared align 16. -/
theorem c6_offset_invariants_fail :
    readLE (OhlinkBuilder.build rtBuilder) 152 4 = 256
    ∧ (OhlinkBuilder.build rtBuilder).length = 252
    ∧ readLE (OhlinkBuilder.build alignBuilder) 304 4 = 424
    ∧ readLE (OhlinkBuilder.build alignBuilder) 308 4 = 16
    ∧ 424 % 16 = 8 :=
  ⟨rfl, rfl, rfl, rfl, rfl⟩

/-! ### Claim C8 -/

set_option maxRecDepth 40000 in
/-- C8: a relocation whose `r_addr` lies just below the section address is
not skipped — it panics.  With `r_addr = 0` and `old_sec.addr = 8` the
wrapping `u64` offset is `2^64 - 8`; the skip guard computes
`offset + 8 = 0` (wrapping) which is not greater than the buffer length, so
the ABS64 arm evaluates `section_data[2^64-8 .. 0]` and dies on the slice
(`none` models the panic; a debug build already panics on the subtraction). -/
theorem c8_low_r_addr_panics :
    applyRelocations [] lowAddrSec 0 lowAddrRelocBytes [⟨0, 0, 0, 0, 0⟩] = none := rfl

/-! ### Claim C9 -/

set_option maxRecDepth 40000 in
/-- C9 counterexample: the archive header is 12 bytes, not 16.  An empty
archive is exactly 12 bytes long (so it cannot begin with a 16-byte
header), and for a one-member archive the entry table starts at byte 12:
byte 12 already holds the first byte of the member name, the entry's offset
field (at byte 44 = 12 + 32) reads 60 = 12 + 48, and byte 60 is the first
body byte. -/
theorem c9_header_is_twelve_bytes :
    (OhlibBuilder.build []).length = 12
    ∧ (OhlibBuilder.build [([97], [9])]).getD 12 0 = 97
    ∧ readLE (OhlibBuilder.build [([97], [9])]) 44 8 = 60
    ∧ (OhlibBuilder.build [([97], [9])]).getD 60 0 = 9 :=
  ⟨rfl, rfl, rfl, rfl⟩

/-! ### Claim C5: lemmas about the selection fixed point -/

/-- A scan never grows the candidate list. -/
theorem selectPass_rem_le (pend : List ArMember) (df uf : List String) :
    (selectPass pend df uf).remaining.length ≤ pend.length := by
  induction pend generalizing df uf with
  | nil => simp [selectPass]
  | cons m rest ih =>
    by_cases h : m.defs.any uf.contains = true
    · simp only [selectPass, h, if_true]
      exact Nat.le_succ_of_le (ih _ _)
    · have h' : m.defs.any uf.contains = false := by simpa using h
      simp only [selectPass, h', Bool.false_eq_true, if_false, List.length_cons]
      exact Nat.succ_le_succ (ih _ _)

/-- A scan that selects nothing leaves the candidate list and the undefined
set untouched, and every candidate's defs miss the undefined set. -/
theorem selectPass_progress_false (pend : List ArMember) (df uf : List String)
    (h : (selectPass pend df uf).progress = false) :
    (selectPass pend df uf).remaining = pend ∧
      (selectPass pend df uf).undefined = uf ∧
      ∀ m ∈ pend, m.defs.any uf.contains = false := by
  induction pend generalizing df uf with
  | nil => simp [selectPass]
  | cons m rest ih =>
    by_cases hm : m.defs.any uf.contains = true
    · simp [selectPass, hm] at h
    · have hm' : m.defs.any uf.contains = false := by simpa using hm
      simp only [selectPass, hm', Bool.false_eq_true, if_false] at h ⊢
      obtain ⟨h1, h2, h3⟩ := ih df uf h
      refine ⟨by rw [h1], h2, ?_⟩
      intro m' hmem'
      rcases List.mem_cons.mp hmem' with rfl | hmem
      · exact hm'
      · exact h3 m' hmem

/-- A scan that selects something strictly shrinks the candidate list. -/
theorem selectPass_progress_true (pend : List ArMember) (df uf : List String)
    (h : (selectPass pend df uf).progress = true) :
    (selectPass pend df uf).remaining.length < pend.length := by
  induction pend generalizing df uf with
  | nil => simp [selectPass] at h
  | cons m rest ih =>
    by_cases hm : m.defs.any uf.contains = true
    · simp only [selectPass, hm, if_true, List.length_cons]
      exact Nat.lt_succ_of_le (selectPass_rem_le _ _ _)
    · have hm' : m.defs.any uf.contains = false := by simpa using hm
      simp only [selectPass, hm', Bool.false_eq_true, if_false] at h ⊢
      simpa using Nat.succ_lt_succ (ih _ _ h)

/-- With enough fuel, the loop ends in a state where no remaining member's
defs meet the final undefined set (the loop stops exactly when a full scan
selects nothing). -/
theorem selectLoop_fixed :
    ∀ fuel pend df uf sel, pend.length < fuel →
      ∀ m ∈ (selectLoop fuel pend df uf sel).remaining,
        m.defs.any ((selectLoop fuel pend df uf sel).undefined.contains) = false := by
  intro fuel
  induction fuel with
  | zero => intro pend _ _ _ h; exact absurd h (Nat.not_lt_zero _)
  | succ fuel ih =>
    intro pend df uf sel hlen m hm
    by_cases hp : (selectPass pend df uf).progress = true
    · rw [selectLoop] at hm ⊢
      simp only [hp, if_true] at hm ⊢
      have hrem : (selectPass pend df uf).remaining.length < fuel :=
        Nat.lt_of_lt_of_le (selectPass_progress_true _ _ _ hp) (Nat.lt_succ_iff.mp hlen)
      exact ih _ _ _ _ hrem m hm
    · have hp' : (selectPass pend df uf).progress = false := by simpa using hp
      rw [selectLoop] at hm ⊢
      simp only [hp', Bool.false_eq_true, if_false] at hm ⊢
      obtain ⟨h1, h2, h3⟩ := selectPass_progress_false pend df uf hp'
      rw [h2]
      exact h3 m (h1 ▸ hm)

/-- Archive member `a.o` of the spec scenario: defines `foo`, no undefs. -/
def aMemb : ArMember := ⟨"a.o", ["foo"], []⟩

/-- Archive member `b.o`: defines `bar`, undefs `baz`. -/
def bMemb : ArMember := ⟨"b.o", ["bar"], ["baz"]⟩

/-- Archive member `c.o`: defines `baz`, no undefs. -/
def cMemb : ArMember := ⟨"c.o", ["baz"], []⟩

/-- C5: selective archive inclusion reaches a fixed point — after the loop,
no remaining member's defined names intersect the final undefined set — and
on the spec's three-member archive, seeding the undefined set with `foo`
selects `a.o` only, while seeding it with `bar` selects `b.o` and then
`c.o` (in that order). -/
theorem c5_selective_inclusion :
    (∀ pend df uf, ∀ m ∈ (selectMembers pend df uf).remaining,
        m.defs.any ((selectMembers pend df uf).undefined.contains) = false)
    ∧ (selectMembers [aMemb, bMemb, cMemb] [] ["foo"]).selected = [aMemb]
    ∧ (selectMembers [aMemb, bMemb, cMemb] [] ["foo"]).remaining = [bMemb, cMemb]
    ∧ (selectMembers [aMemb, bMemb, cMemb] [] ["bar"]).selected = [bMemb, cMemb] := by
  refine ⟨?_, by decide, by decide, by decide⟩
  intro pend df uf m hm
  exact selectLoop_fixed _ _ _ _ _ (Nat.lt_succ_self _) m hm

/-- C5 witness: a singleton archive whose member is never needed stays
unselected, and its defs indeed miss the (empty) undefined set. -/
theorem c5_selective_inclusion_witness :
    aMemb.defs.any ((selectMembers [aMemb] [] []).undefined.contains) = false :=
  c5_selective_inclusion.1 [aMemb] [] [] aMemb (by decide)

/-! ### Claim C10: header-field and structure lemmas -/

theorem leBytes_length (n v : Nat) : (leBytes n v).length = n := by
  induction n generalizing v with
  | zero => rfl
  | succ n ih => simp [leBytes, ih]

theorem readLE_cons (a : Nat) (d : List Nat) (off n : Nat) :
    readLE (a :: d) (off + 1) n = readLE d off n := by
  induction n generalizing off with
  | zero => rfl
  | succ n ih =>
    show (a :: d).getD (off + 1) 0 + 256 * readLE (a :: d) (off + 1 + 1) n = _
    rw [List.getD_cons_succ, ih (off + 1)]
    rfl

theorem readLE_append_right (A t : List Nat) (off n : Nat) (h : A.length ≤ off) :
    readLE (A ++ t) off n = readLE t (off - A.length) n := by
  induction A generalizing off with
  | nil => simp
  | cons a A ih =>
    cases off with
    | zero => simp at h
    | succ off =>
      have h' : A.length ≤ off := by simpa [Nat.succ_le_succ_iff] using h
      show readLE (a :: (A ++ t)) (off + 1) n = _
      rw [readLE_cons, ih off h']
      simp [List.length_cons, Nat.succ_sub_succ]

theorem readLE_leBytes_head (n v : Nat) (t : List Nat) :
    readLE (leBytes n v ++ t) 0 n = v % 256 ^ n := by
  induction n generalizing v with
  | zero => simp [readLE, leBytes, Nat.mod_one]
  | succ n ih =>
    show readLE ((v % 256 :: leBytes n (v / 256)) ++ t) 0 (n + 1) = _
    show (v % 256 :: (leBytes n (v / 256) ++ t)).getD 0 0 +
      256 * readLE (v % 256 :: (leBytes n (v / 256) ++ t)) (0 + 1) (n) = _
    rw [List.getD_cons_zero, readLE_cons, ih]
    rw [pow_succ']
    exact (Nat.mod_mul).symm

/-- The `ncmds` field (bytes 16..19) of any built file reads back as
`(segment count + 2) mod 2^32`. -/
theorem build_ncmds_field (b : OhlinkBuilder) :
    readLE b.build 16 4 = (b.segments.length + 2) % 2 ^ 32 := by
  show readLE (OhlinkHeader.toBytes _ ++ _ ++ _) 16 4 = _
  simp only [OhlinkHeader.toBytes, List.append_assoc]
  rw [readLE_append_right _ _ _ _ (by simp [leBytes_length])]
  simp only [leBytes_length]
  rw [readLE_append_right _ _ _ _ (by simp [leBytes_length])]
  simp only [leBytes_length]
  rw [readLE_append_right _ _ _ _ (by simp [leBytes_length])]
  simp only [leBytes_length]
  rw [readLE_append_right _ _ _ _ (by simp [leBytes_length])]
  simp only [leBytes_length]
  norm_num
  rw [readLE_leBytes_head]
  norm_num

theorem emitSymbols_segments (ti di : List MergeItem) (sm om : List (Nat × Nat × Nat))
    (gd : List (List Nat × Nat)) (fi : Nat) (st : List Nat) :
    ∀ entries (b b' : OhlinkBuilder),
      emitSymbols ti di sm om gd fi st entries b = some b' →
      b'.segments = b.segments := by
  intro entries
  induction entries with
  | nil =>
    intro b b' h
    simp only [emitSymbols, Option.some.injEq] at h
    rw [← h]
  | cons e rest ih =>
    intro b b' h
    simp only [emitSymbols] at h
    split at h
    · cases h
    · rw [ih _ _ h]
      rfl

theorem emitAllSymbols_segments (ti di : List MergeItem) (sm om : List (Nat × Nat × Nat))
    (gd : List (List Nat × Nat)) :
    ∀ lst (fi : Nat) (b b' : OhlinkBuilder),
      emitAllSymbols ti di sm om gd lst fi b = some b' →
      b'.segments = b.segments := by
  intro lst
  induction lst with
  | nil =>
    intro fi b b' h
    simp only [emitAllSymbols, Option.some.injEq] at h
    rw [← h]
  | cons p rest ih =>
    intro fi b b' h
    obtain ⟨entries, st⟩ := p
    simp only [emitAllSymbols] at h
    split at h
    · cases h
    · next b1 hstep =>
      rw [ih _ _ _ h, emitSymbols_segments ti di sm om gd fi st entries b b1 hstep]

theorem foldl_addsec_segname (items : List MergeItem) (sg : SegmentBuilder) :
    (items.foldl (fun sg it =>
      sg.add_section_with it.name it.bytes it.rel it.align it.bytes.length) sg).segname
      = sg.segname := by
  induction items generalizing sg with
  | nil => rfl
  | cons it rest ih =>
    rw [List.foldl_cons, ih]
    rfl

theorem foldl_addsec_vmaddr (items : List MergeItem) (sg : SegmentBuilder) :
    (items.foldl (fun sg it =>
      sg.add_section_with it.name it.bytes it.rel it.align it.bytes.length) sg).vmaddr
      = sg.vmaddr := by
  induction items generalizing sg with
  | nil => rfl
  | cons it rest ih =>
    rw [List.foldl_cons, ih]
    rfl

/-- C10: every builder the linker pipeline produces has exactly the three
segments `__PAGEZERO`, `__TEXT`, `__DATA` in that order — the `__PAGEZERO`
segment sits at vmaddr 0 and holds the single zero-fill `__pagezero` section
of declared size `0x1_0000_0000` (align 0x1000, empty data) — and the
emitted header's `ncmds` field is 5, for every input list and both base
addresses. -/
theorem c10_pagezero_layout :
    ∀ inputs tb db b, linkCore inputs tb db = some b →
      b.segments.map (fun s => s.segname) = [name16 bPAGEZERO, name16 bTEXT, name16 bDATA]
      ∧ (b.segments.head?.map (fun s =>
          (s.vmaddr, s.sections.map (fun c => (c.data, c.size, c.addr, c.align))))) =
        some (0, [([], 0x100000000, 0, 0x1000)])
      ∧ b.segments.length = 3
      ∧ readLE b.build 16 4 = 5 := by
  intro inputs tb db b h
  unfold linkCore at h
  split at h
  · cases h
  · next st hm =>
    have hseg := emitAllSymbols_segments _ _ _ _ _ _ _ _ _ h
    have hlist : b.segments =
        [(newSegment bPAGEZERO 0).add_section_with bPagezeroSec [] 0 0x1000 0x100000000,
         st.textItems.foldl (fun sg it =>
           sg.add_section_with it.name it.bytes it.rel it.align it.bytes.length)
           (newSegment bTEXT tb),
         st.dataItems.foldl (fun sg it =>
           sg.add_section_with it.name it.bytes it.rel it.align it.bytes.length)
           (newSegment bDATA db)] := by
      rw [hseg]
      simp [defaultBsdLayout, OhlinkBuilder.new]
    have hlen : b.segments.length = 3 := by rw [hlist]; rfl
    refine ⟨?_, ?_, hlen, ?_⟩
    · rw [hlist]
      simp only [List.map_cons, List.map_nil, foldl_addsec_segname]
      rfl
    · rw [hlist]
      rfl
    · rw [build_ncmds_field, hlen]
      norm_num

/-- The builder produced by linking an empty input list at text base 64 and
data base 128. -/
def emptyLinkResult : OhlinkBuilder :=
  { file_type := MH_EXECUTE,
    segments := [(newSegment bPAGEZERO 0).add_section_with bPagezeroSec [] 0 0x1000 0x100000000,
                 newSegment bTEXT 64, newSegment bDATA 128],
    symbols := [], strings := [0] }

/-- C10 witness: the empty link at bases 64/128 produces exactly the
three-segment layout with `ncmds = 5`. -/
theorem c10_pagezero_layout_witness :
    linkCore [] 64 128 = some emptyLinkResult
    ∧ emptyLinkResult.segments.map (fun s => s.segname) =
        [name16 bPAGEZERO, name16 bTEXT, name16 bDATA]
    ∧ readLE emptyLinkResult.build 16 4 = 5 := by
  have h : linkCore [] 64 128 = some emptyLinkResult := rfl
  exact ⟨h, (c10_pagezero_layout [] 64 128 emptyLinkResult h).1,
    (c10_pagezero_layout [] 64 128 emptyLinkResult h).2.2.2⟩

/-! ### Claim C9: structure of built archives -/

theorem name32_length (nm : List Nat) : (name32 nm).length = 32 := by
  simp [name32]
  omega

theorem ohlibEntryBytes_length (nm : List Nat) (off size : Nat) :
    (ohlibEntryBytes nm off size).length = 48 := by
  simp [ohlibEntryBytes, name32_length, leBytes_length]

theorem ohlibGo_tbl_len (ms : List (List Nat × List Nat)) (off : Nat) :
    (ohlibGo ms off).1.length = 48 * ms.length := by
  induction ms generalizing off with
  | nil => rfl
  | cons m rest ih =>
    obtain ⟨nm, bs⟩ := m
    simp [ohlibGo, ohlibEntryBytes_length, ih]
    ring

theorem ohlibGo_blob (ms : List (List Nat × List Nat)) (off : Nat) :
    (ohlibGo ms off).2 = (ms.map (fun m => m.2)).flatten := by
  induction ms generalizing off with
  | nil => rfl
  | cons m rest ih =>
    obtain ⟨nm, bs⟩ := m
    simp [ohlibGo, ih]

theorem ohlibGo_tbl_at (ms : List (List Nat × List Nat)) (off k : Nat)
    (hk : k < ms.length) :
    (((ohlibGo ms off).1.drop (48 * k)).take 48) =
      ohlibEntryBytes (ms.get ⟨k, hk⟩).1
        (off + ((ms.take k).map (fun m => m.2.length)).sum)
        (ms.get ⟨k, hk⟩).2.length := by
  induction ms generalizing off k with
  | nil => cases hk
  | cons m rest ih =>
    obtain ⟨nm, bs⟩ := m
    cases k with
    | zero =>
      simp only [ohlibGo, List.drop_zero, Nat.mul_zero, List.take_nil,
        List.map_nil, List.sum_nil, Nat.add_zero, List.get, List.take_zero]
      exact List.take_left' (ohlibEntryBytes_length nm off bs.length)
    | succ k =>
      have hk' : k < rest.length := Nat.succ_lt_succ_iff.mp hk
      have hdrop : ((ohlibGo ((nm, bs) :: rest) off).1.drop (48 * (k + 1))) =
          ((ohlibGo rest (off + bs.length)).1.drop (48 * k)) := by
        show ((ohlibEntryBytes nm off bs.length ++
          (ohlibGo rest (off + bs.length)).1).drop (48 * (k + 1))) = _
        rw [List.drop_append_eq_append_drop]
        rw [List.drop_eq_nil_of_le (by rw [ohlibEntryBytes_length]; omega)]
        have h48 : 48 * (k + 1) - 48 = 48 * k := by omega
        rw [List.nil_append, ohlibEntryBytes_length, h48]
      rw [hdrop, ih (off + bs.length) k hk']
      simp only [List.take_succ_cons, List.map_cons, List.sum_cons, List.get,
        Nat.add_assoc]

theorem flatten_body_at (ms : List (List Nat × List Nat)) (k : Nat)
    (hk : k < ms.length) :
    ((((ms.map (fun m => m.2)).flatten).drop
        (((ms.take k).map (fun m => m.2.length)).sum)).take
      (ms.get ⟨k, hk⟩).2.length) = (ms.get ⟨k, hk⟩).2 := by
  induction ms generalizing k with
  | nil => cases hk
  | cons m rest ih =>
    obtain ⟨nm, bs⟩ := m
    cases k with
    | zero =>
      simp only [List.map_cons, List.flatten_cons, List.take_zero, List.map_nil,
        List.sum_nil, List.drop_zero, List.get]
      exact List.take_left' rfl
    | succ k =>
      have hk' : k < rest.length := Nat.succ_lt_succ_iff.mp hk
      simp only [List.map_cons, List.flatten_cons, List.take_succ_cons, List.sum_cons,
        List.get]
      rw [List.drop_append_eq_append_drop]
      rw [List.drop_eq_nil_of_le (by omega)]
      rw [List.nil_append]
      have heq : bs.length + ((rest.take k).map (fun m => m.2.length)).sum - bs.length =
          ((rest.take k).map (fun m => m.2.length)).sum := by omega
      rw [heq]
      exact ih k hk'

/-- C9 amended: every built archive is a 12-byte header (magic, nentries,
reserved — `size_of::<OhlibHeader>()` is 12, not the 16 of the claim),
followed immediately by `nentries` 48-byte entries (name[32] zero-padded
with up to 31 payload bytes, offset, size), followed by the concatenated
member bodies; entry `k`'s offset field is the absolute file offset
`12 + 48·n + Σ earlier body sizes` of the first byte of its body, and the
bytes there are exactly that body. -/
theorem c9_archive_layout_amended (ms : List (List Nat × List Nat)) (k : Nat)
    (hk : k < ms.length) :
    (OhlibBuilder.build ms).take 12 =
        leBytes 4 OHLIB_MAGIC ++ leBytes 4 (ms.length % 2 ^ 32) ++ leBytes 4 0
    ∧ ((OhlibBuilder.build ms).drop (12 + 48 * k)).take 48 =
        ohlibEntryBytes (ms.get ⟨k, hk⟩).1
          (12 + 48 * ms.length + ((ms.take k).map (fun m => m.2.length)).sum)
          (ms.get ⟨k, hk⟩).2.length
    ∧ ((OhlibBuilder.build ms).drop
          (12 + 48 * ms.length + ((ms.take k).map (fun m => m.2.length)).sum)).take
        (ms.get ⟨k, hk⟩).2.length = (ms.get ⟨k, hk⟩).2 := by
  have hhdr : (leBytes 4 OHLIB_MAGIC ++ leBytes 4 (ms.length % 2 ^ 32) ++
      leBytes 4 0).length = 12 := by
    simp [leBytes_length]
  have hb : OhlibBuilder.build ms =
      (leBytes 4 OHLIB_MAGIC ++ leBytes 4 (ms.length % 2 ^ 32) ++ leBytes 4 0) ++
        ((ohlibGo ms (12 + 48 * ms.length)).1 ++ (ohlibGo ms (12 + 48 * ms.length)).2) := by
    simp [OhlibBuilder.build, List.append_assoc]
  have htbl : (ohlibGo ms (12 + 48 * ms.length)).1.length = 48 * ms.length :=
    ohlibGo_tbl_len ms _
  refine ⟨?_, ?_, ?_⟩
  · rw [hb]
    exact List.take_left' hhdr
  · rw [hb, List.drop_append_eq_append_drop,
      List.drop_eq_nil_of_le (by rw [hhdr]; omega), List.nil_append, hhdr]
    have h1 : 12 + 48 * k - 12 = 48 * k := by omega
    rw [h1, List.drop_append_eq_append_drop]
    have h2 : 48 * k - (ohlibGo ms (12 + 48 * ms.length)).1.length = 0 := by
      rw [htbl]; omega
    rw [h2, List.drop_zero, List.take_append_eq_append_take]
    have h3 : 48 - ((ohlibGo ms (12 + 48 * ms.length)).1.drop (48 * k)).length = 0 := by
      rw [List.length_drop, htbl]; omega
    rw [h3, List.take_zero, List.append_nil]
    exact ohlibGo_tbl_at ms _ k hk
  · rw [hb, List.drop_append_eq_append_drop,
      List.drop_eq_nil_of_le (by rw [hhdr]; omega), List.nil_append, hhdr]
    rw [List.drop_append_eq_append_drop,
      List.drop_eq_nil_of_le (by rw [htbl]; omega), List.nil_append, htbl]
    have h4 : 12 + 48 * ms.length + ((ms.take k).map (fun m => m.2.length)).sum - 12 -
        48 * ms.length = ((ms.take k).map (fun m => m.2.length)).sum := by omega
    rw [h4, ohlibGo_blob]
    exact flatten_body_at ms k hk

/-! ### Claim C7: the ADRP page-relative patch -/

theorem wrapInt_lt (w : Nat) (z : Int) : wrapInt w z < 2 ^ w := by
  unfold wrapInt
  have h1 : (0 : Int) < 2 ^ w := by positivity
  have h2 := Int.emod_nonneg z (ne_of_gt h1)
  have h3 := Int.emod_lt_of_pos z h1
  have h4 : (((2 ^ w : Nat) : Int)) = (2 : Int) ^ w := by push_cast; ring
  omega

/-- Arithmetic-shifting a 32-bit pattern right by 2 and keeping 19 bits is
the same as logically shifting it (bits 2..20 are below the sign fill). -/
theorem sar32_and_19 (x : Nat) (hx : x < 2 ^ 32) :
    sar32 x 2 &&& (2 ^ 19 - 1) = (x >>> 2) &&& (2 ^ 19 - 1) := by
  unfold sar32 toSigned wrapInt
  rw [Nat.and_pow_two_sub_one_eq_mod, Nat.and_pow_two_sub_one_eq_mod,
    Nat.shiftRight_eq_div_pow]
  split
  · omega
  · omega

/-- Bit-level behaviour of the ADRP field insertion: with immlo below 4 and
immhi below `2^19`, the two fields read back exactly and every bit outside
[30:29] and [23:5] is unchanged. -/
theorem adrp_extract (orig immlo immhi : Nat) (hlo : immlo < 4) (hhi : immhi < 2 ^ 19) :
    (((((orig &&& ((2 ^ 32 - 1) ^^^ ((2 ^ 2 - 1) <<< 29)))
          &&& ((2 ^ 32 - 1) ^^^ ((2 ^ 19 - 1) <<< 5)))
        ||| (immlo <<< 29) ||| (immhi <<< 5)) >>> 29) &&& (2 ^ 2 - 1)) = immlo
    ∧ (((((orig &&& ((2 ^ 32 - 1) ^^^ ((2 ^ 2 - 1) <<< 29)))
          &&& ((2 ^ 32 - 1) ^^^ ((2 ^ 19 - 1) <<< 5)))
        ||| (immlo <<< 29) ||| (immhi <<< 5)) >>> 5) &&& (2 ^ 19 - 1)) = immhi
    ∧ (∀ i : Nat, i < 32 → i ≠ 29 → i ≠ 30 → (i < 5 ∨ 23 < i) →
        (((orig &&& ((2 ^ 32 - 1) ^^^ ((2 ^ 2 - 1) <<< 29)))
            &&& ((2 ^ 32 - 1) ^^^ ((2 ^ 19 - 1) <<< 5)))
          ||| (immlo <<< 29) ||| (immhi <<< 5)).testBit i = orig.testBit i) := by
  refine ⟨?_, ?_, ?_⟩
  · apply Nat.eq_of_testBit_eq
    intro i
    simp only [Nat.testBit_and, Nat.testBit_or, Nat.testBit_xor,
      Nat.testBit_shiftLeft, Nat.testBit_shiftRight, Nat.testBit_two_pow_sub_one]
    match i with
    | 0 =>
      have hb : immhi.testBit 24 = false :=
        Nat.testBit_lt_two_pow (lt_of_lt_of_le hhi (by norm_num))
      simp [hb]
    | 1 =>
      have hb : immhi.testBit 25 = false :=
        Nat.testBit_lt_two_pow (lt_of_lt_of_le hhi (by norm_num))
      simp [hb]
    | i + 2 =>
      have hb : immlo.testBit (i + 2) = false := by
        apply Nat.testBit_lt_two_pow
        have h4 : (2 : Nat) ^ 2 ≤ 2 ^ (i + 2) := Nat.pow_le_pow_right (by norm_num) (by omega)
        omega
      simp [hb]
  · apply Nat.eq_of_testBit_eq
    intro i
    simp only [Nat.testBit_and, Nat.testBit_or, Nat.testBit_xor,
      Nat.testBit_shiftLeft, Nat.testBit_shiftRight, Nat.testBit_two_pow_sub_one]
    by_cases hi : i < 19
    · have d1 : 5 + i < 32 := by omega
      have d2 : ¬ (29 ≤ 5 + i) := by omega
      have d3 : (5 : Nat) ≤ 5 + i := by omega
      have d4 : 5 + i - 5 = i := by omega
      simp [d1, d2, d3, d4, hi]
    · have hb : immhi.testBit i = false :=
        Nat.testBit_lt_two_pow
          (lt_of_lt_of_le hhi (Nat.pow_le_pow_right (by norm_num) (by omega)))
      simp [hi, hb]
  · intro i h32 h29 h30 hz
    simp only [Nat.testBit_and, Nat.testBit_or, Nat.testBit_xor,
      Nat.testBit_shiftLeft, Nat.testBit_shiftRight, Nat.testBit_two_pow_sub_one]
    rcases hz with hlt5 | hgt23
    · have n29 : ¬ (29 ≤ i) := by omega
      have n5 : ¬ (5 ≤ i) := by omega
      simp [n29, n5, h32]
    · have h5le : (5 : Nat) ≤ i := by omega
      have hs19 : ¬ (i - 5 < 19) := by omega
      have hhib : immhi.testBit (i - 5) = false :=
        Nat.testBit_lt_two_pow
          (lt_of_lt_of_le hhi (Nat.pow_le_pow_right (by norm_num) (by omega)))
      by_cases h29le : 29 ≤ i
      · have hs2 : ¬ (i - 29 < 2) := by omega
        have hlob : immlo.testBit (i - 29) = false := by
          apply Nat.testBit_lt_two_pow
          have h4 : (2 : Nat) ^ 2 ≤ 2 ^ (i - 29) := Nat.pow_le_pow_right (by norm_num) (by omega)
          omega
        simp [h32, h5le, h29le, hs19, hs2, hlob, hhib]
      · simp [h32, h5le, h29le, hs19, hhib]

/-- C7: for every applied `RELOC_AARCH64_ADR_PREL_PG_HI21` relocation (patch
site `place`, resolved target `T = V + A`), the patched word's imm21 field
(immlo in bits [30:29] holding imm[1:0], immhi in bits [23:5] holding
imm[20:2], read back as `immlo + 4*immhi`) is the 21-bit two's-complement
pattern of `(T >> 12) - (place >> 12)`; when that page delta fits in a
signed 21-bit value the field decodes to it exactly; and every other bit of
the 32-bit instruction word is unchanged. -/
theorem c7_adrp_encoding (orig : Nat) (T place : Int) :
    ((patchAdrpWord orig T place >>> 29) &&& (2 ^ 2 - 1)) +
        4 * ((patchAdrpWord orig T place >>> 5) &&& (2 ^ 19 - 1)) =
      ((T / 2 ^ 12 - place / 2 ^ 12) % (2 ^ 21 : Int)).toNat
    ∧ (-(2 ^ 20 : Int) ≤ T / 2 ^ 12 - place / 2 ^ 12 →
        T / 2 ^ 12 - place / 2 ^ 12 < 2 ^ 20 →
        toSigned 21 (((patchAdrpWord orig T place >>> 29) &&& (2 ^ 2 - 1)) +
            4 * ((patchAdrpWord orig T place >>> 5) &&& (2 ^ 19 - 1))) =
          T / 2 ^ 12 - place / 2 ^ 12)
    ∧ (∀ i : Nat, i < 32 → i ≠ 29 → i ≠ 30 → (i < 5 ∨ 23 < i) →
        (patchAdrpWord orig T place).testBit i = orig.testBit i) := by
  have hplt : wrapInt 32 (T / 2 ^ 12 - place / 2 ^ 12) < 2 ^ 32 := wrapInt_lt 32 _
  have hlo : wrapInt 32 (T / 2 ^ 12 - place / 2 ^ 12) &&& (2 ^ 2 - 1) < 4 :=
    lt_of_le_of_lt Nat.and_le_right (by norm_num)
  have hhi : sar32 (wrapInt 32 (T / 2 ^ 12 - place / 2 ^ 12)) 2 &&& (2 ^ 19 - 1) < 2 ^ 19 :=
    lt_of_le_of_lt Nat.and_le_right (by norm_num)
  obtain ⟨ha, hb, hc⟩ := adrp_extract orig _ _ hlo hhi
  have hw : patchAdrpWord orig T place =
      ((orig &&& ((2 ^ 32 - 1) ^^^ ((2 ^ 2 - 1) <<< 29)))
          &&& ((2 ^ 32 - 1) ^^^ ((2 ^ 19 - 1) <<< 5)))
        ||| ((wrapInt 32 (T / 2 ^ 12 - place / 2 ^ 12) &&& (2 ^ 2 - 1)) <<< 29)
        ||| ((sar32 (wrapInt 32 (T / 2 ^ 12 - place / 2 ^ 12)) 2 &&& (2 ^ 19 - 1)) <<< 5) :=
    rfl
  have henc : ((patchAdrpWord orig T place >>> 29) &&& (2 ^ 2 - 1)) +
      4 * ((patchAdrpWord orig T place >>> 5) &&& (2 ^ 19 - 1)) =
      ((T / 2 ^ 12 - place / 2 ^ 12) % (2 ^ 21 : Int)).toNat := by
    rw [hw, ha, hb, sar32_and_19 _ hplt, Nat.and_pow_two_sub_one_eq_mod,
      Nat.and_pow_two_sub_one_eq_mod, Nat.shiftRight_eq_div_pow]
    unfold wrapInt
    omega
  refine ⟨henc, ?_, ?_⟩
  · intro hge hlt
    rw [henc]
    unfold toSigned
    split
    · omega
    · omega
  · intro i h32 h29 h30 hz
    rw [hw]
    exact hc i h32 h29 h30 hz

/-- C7 witness: patching an ADRP word 0x90000000 at place 0x4000_0000
against target 0x4000_1234 (page delta 1) decodes back to 1 and leaves
bit 31 of the instruction untouched. -/
theorem c7_adrp_encoding_witness :
    toSigned 21 (((patchAdrpWord 0x90000000 0x40001234 0x40000000 >>> 29) &&& (2 ^ 2 - 1)) +
        4 * ((patchAdrpWord 0x90000000 0x40001234 0x40000000 >>> 5) &&& (2 ^ 19 - 1))) =
      (0x40001234 : Int) / 2 ^ 12 - (0x40000000 : Int) / 2 ^ 12
    ∧ (patchAdrpWord 0x90000000 0x40001234 0x40000000).testBit 31 =
        (0x90000000 : Nat).testBit 31 :=
  ⟨(c7_adrp_encoding 0x90000000 0x40001234 0x40000000).2.1 (by decide) (by decide),
   (c7_adrp_encoding 0x90000000 0x40001234 0x40000000).2.2 31 (by decide) (by decide)
     (by decide) (Or.inr (by decide))⟩

/-- C9 witness: the amended layout at the one-member archive
`[("a", [9, 8])]` — header, entry (offset 60 = 12 + 48, size 2), body. -/
theorem c9_archive_layout_amended_witness :
    (OhlibBuilder.build [([97], [9, 8])]).take 12 =
        leBytes 4 OHLIB_MAGIC ++ leBytes 4 1 ++ leBytes 4 0
    ∧ ((OhlibBuilder.build [([97], [9, 8])]).drop 12).take 48 =
        ohlibEntryBytes [97] 60 2
    ∧ ((OhlibBuilder.build [([97], [9, 8])]).drop 60).take 2 = [9, 8] :=
  c9_archive_layout_amended [([97], [9, 8])] 0 (by decide)
